import Mathlib

/-!
Verification development for the KoboToolbox survey comparison engine
(`scripts/kopomapper/kmapper.py`).

The engine compares country survey/choices tables against a standard
template and emits discrepancy records.  Cell values are modelled by
`PyVal` (a string, Python `None`, or a float NaN).  The fuzzywuzzy
similarity scorers are external library functions; they are modelled as
an abstract `Scorers` bundle of functions `String → String → Nat`, since
none of the engine's control flow depends on their internals.
-/

/-- A pandas cell value as the engine sees it: a string, `None`, or NaN. -/
inductive PyVal
  | none
  | nan
  | str (s : String)
  deriving DecidableEq, Repr

/-- Python `==` on cell values: NaN compares unequal to everything
(including itself); `None == None` is `True`; strings compare as usual. -/
def pyEq : PyVal → PyVal → Bool
  | .nan, _ => false
  | _, .nan => false
  | .none, .none => true
  | .str a, .str b => a == b
  | _, _ => false

/-- `pd.isna` / `dropna` criterion: only `None` and NaN are "missing". -/
def isNa : PyVal → Bool
  | .nan => true
  | .none => true
  | .str _ => false

/-- Python whitespace for `str.strip` and the regex class `\s`
(space, tab, newline, carriage return, vertical tab, form feed). -/
def isPySpace (c : Char) : Bool :=
  c == ' ' || c == '\t' || c == '\n' || c == '\r' || c == '\x0b' || c == '\x0c'

/-- The regex class `\w` (ASCII model): letters, digits and underscore. -/
def isWordChar (c : Char) : Bool :=
  c.isAlphanum || c == '_'

/-- Drop trailing characters satisfying `isPySpace`. -/
def dropTrailingSpaces : List Char → List Char
  | [] => []
  | c :: cs =>
    let r := dropTrailingSpaces cs
    if r.isEmpty && isPySpace c then [] else c :: r

/-- Python `str.strip`: drop leading and trailing whitespace. -/
def stripChars (l : List Char) : List Char :=
  dropTrailingSpaces (l.dropWhile isPySpace)

/-- `is_empty_or_nan` from the source: NaN floats are empty, `None` is
empty, and a string is empty when it strips to the empty string. -/
def is_empty_or_nan : PyVal → Bool
  | .nan => true
  | .none => true
  | .str s => (stripChars s.data).isEmpty

/-- `str(value) if value is not None else ""` as used by
`find_approximate_match` (note `str(nan) = "nan"`). -/
def strOrEmpty : PyVal → String
  | .none => ""
  | .nan => "nan"
  | .str s => s

/-- One pass of `re.sub(r'[_\s]+', ' ', ·)`: the `Bool` flag records
whether we are inside a run of underscores/whitespace. -/
def collapseAux : Bool → List Char → List Char
  | _, [] => []
  | inRun, c :: cs =>
    if c == '_' || isPySpace c then
      if inRun then collapseAux true cs else ' ' :: collapseAux true cs
    else c :: collapseAux false cs

/-- Replace every maximal run of underscores/whitespace by one space. -/
def collapseRuns (l : List Char) : List Char :=
  collapseAux false l

/-- `preprocess_text` from the source: NaN-like values normalize to `""`;
otherwise lower-case, remove punctuation (`[^\w\s]`), collapse
underscores/whitespace runs to single spaces, and strip. -/
def preprocess_text (text : PyVal) : String :=
  match text with
  | .none => ""
  | .nan => ""
  | .str s =>
    let lowered := s.data.map Char.toLower
    let noPunct := lowered.filter (fun c => isWordChar c || isPySpace c)
    ⟨stripChars (collapseRuns noPunct)⟩

/-- The four fuzzywuzzy similarity scorers, kept abstract. -/
structure Scorers where
  ratio : String → String → Nat
  partial_ratio : String → String → Nat
  token_sort_ratio : String → String → Nat
  token_set_ratio : String → String → Nat

/-- One iteration of the candidate-scan loop shared by
`find_approximate_match`, `find_best_match` and `find_token_match`: skip
a candidate when its string form (or the target's) is empty, otherwise
score it and keep it when the score strictly exceeds the running best
and passes `accept`. -/
def searchStep (toStr : PyVal → String) (score : String → String → Nat)
    (accept : Nat → Bool) (value_str : String) (acc : Option PyVal × Nat)
    (candidate : PyVal) : Option PyVal × Nat :=
  let candidate_str := toStr candidate
  if value_str = "" ∨ candidate_str = "" then acc
  else
    let s := score value_str candidate_str
    if acc.2 < s ∧ accept s = true then (some candidate, s) else acc

/-- The candidate-scan loop itself, starting from `(None, 0)`. -/
def searchLoop (toStr : PyVal → String) (score : String → String → Nat)
    (accept : Nat → Bool) (value_str : String) (candidates : List PyVal) :
    Option PyVal × Nat :=
  candidates.foldl (searchStep toStr score accept value_str) (Option.none, 0)

/-- `find_approximate_match`: token-set-ratio over raw string forms,
keeping only scores that reach the threshold. -/
def find_approximate_match (S : Scorers) (value : PyVal)
    (candidates : List PyVal) (threshold : Nat) : Option PyVal × Nat :=
  searchLoop strOrEmpty S.token_set_ratio (fun s => decide (threshold ≤ s))
    (strOrEmpty value) candidates

/-- `preprocess_text(value) if not is_empty_or_nan(value) else ""`. -/
def normStr (v : PyVal) : String :=
  if is_empty_or_nan v = true then "" else preprocess_text v

/-- `find_best_match`: partial-ratio over normalized values, no
threshold filter inside the scan. -/
def find_best_match (S : Scorers) (value : PyVal) (candidates : List PyVal) :
    Option PyVal × Nat :=
  searchLoop normStr S.partial_ratio (fun _ => true) (normStr value) candidates

/-- `find_token_match`: token-sort-ratio over normalized values, no
threshold filter inside the scan. -/
def find_token_match (S : Scorers) (value : PyVal) (candidates : List PyVal) :
    Option PyVal × Nat :=
  searchLoop normStr S.token_sort_ratio (fun _ => true) (normStr value) candidates

/-- `fuzzywuzzy.process.extractOne` with the default cutoff: the
first-encountered maximal-scoring choice, or `none` when the choice list
is empty (in which case the Python caller's tuple unpacking raises). -/
def extractOne (scorer : String → String → Nat) (query : String)
    (choices : List String) : Option (String × Nat) :=
  match choices with
  | [] => Option.none
  | c :: cs =>
    some (cs.foldl
      (fun best ch => let s := scorer query ch; if best.2 < s then (ch, s) else best)
      (c, scorer query c))

/-- `find_label_match`: preprocess, try exact membership, then the four
scorers in order (exact ratio, token-sort, partial, token-set), stopping
at the first that reaches the threshold; otherwise return the last
(token-set) result as-is.  Returns `Option.none` exactly when the label
pool is empty, modelling the `TypeError` raised by unpacking
`process.extractOne`'s `None`. -/
def find_label_match (S : Scorers) (std_value : PyVal)
    (country_labels : List PyVal) (threshold : Nat) : Option (String × Nat) :=
  let q := preprocess_text std_value
  let labels := country_labels.map preprocess_text
  if q ∈ labels then some (q, 100)
  else
    match extractOne S.ratio q labels with
    | Option.none => Option.none
    | some (m, s) =>
      if threshold ≤ s then some (m, s)
      else
        match extractOne S.token_sort_ratio q labels with
        | Option.none => Option.none
        | some (m, s) =>
          if threshold ≤ s then some (m, s)
          else
            match extractOne S.partial_ratio q labels with
            | Option.none => Option.none
            | some (m, s) =>
              if threshold ≤ s then some (m, s)
              else
                match extractOne S.token_set_ratio q labels with
                | Option.none => Option.none
                | some (m, s) => some (m, s)

/-- A dataset row: column name to value.  Absent tracked cells are NaN,
matching how pandas materializes missing cells. -/
abbrev Row := List (String × PyVal)

/-- Cell access; missing cells read as NaN. -/
def getCell (r : Row) (c : String) : PyVal :=
  (r.lookup c).getD PyVal.nan

/-- A tabular dataset: its column list and its ordered rows. -/
structure Table where
  cols : List String
  rows : List Row

def SURVEY_COLUMNS_TO_COMPARE : List String :=
  ["name", "type", "calculation", "relevant", "constraint"]

def CHOICES_COLUMNS_TO_COMPARE : List String :=
  ["name", "list_name"]

def SPECIAL_TYPES : List String :=
  ["begin_group", "end_group", "begin_repeat", "end_repeat"]

def LABEL_COLUMNS : List String :=
  ["label::English", "label::French"]

/-- `extract_variables`: keep only the requested columns that exist. -/
def extract_variables (t : Table) (columns_to_compare : List String) : Table :=
  ⟨columns_to_compare.filter (fun c => t.cols.contains c), t.rows⟩

/-- `get_available_label_columns`. -/
def get_available_label_columns (t : Table) : List String :=
  LABEL_COLUMNS.filter (fun c => t.cols.contains c)

/-- First-seen-order deduplication (pandas `.unique()`). -/
def dedupGo (seen : List PyVal) : List PyVal → List PyVal
  | [] => []
  | v :: vs => if v ∈ seen then dedupGo seen vs else v :: dedupGo (v :: seen) vs

def dedupFirst (l : List PyVal) : List PyVal :=
  dedupGo [] l

/-- `df[col].dropna().unique()`: a column's non-missing values in order
of first appearance. -/
def columnPool (t : Table) (c : String) : List PyVal :=
  dedupFirst ((t.rows.map (fun r => getCell r c)).filter (fun v => isNa v = false))

/-- `df[label_cols].stack().dropna().unique()`: label values row-major
across the label columns, missing dropped, deduplicated first-seen. -/
def labelPool (t : Table) (labelCols : List String) : List PyVal :=
  dedupFirst
    ((t.rows.foldr (fun r acc => labelCols.map (fun c => getCell r c) ++ acc) []).filter
      (fun v => isNa v = false))

/-- `std_type in SPECIAL_TYPES` (a non-string is never special). -/
def isSpecial : PyVal → Bool
  | .str s => SPECIAL_TYPES.contains s
  | _ => false

/-- The five cascade outputs attached to one compared field. -/
structure FieldOutcome where
  matched : String
  approximate_match : Option PyVal
  best_match : Option PyVal
  token_match : Option PyVal
  label_match : Option String
  deriving DecidableEq, Repr

/-- The per-field comparison and match cascade (source lines 232-267 and
311-346): on equal or both-empty values, status `"matched"` with no
escalation fields; otherwise status `"not matched"` and the cascade of
approximate, best, token and label stages.  `Option.none` models the
exception raised when the label stage runs on an empty label pool. -/
def compareField (S : Scorers) (threshold : Nat) (std_value country_value : PyVal)
    (pool : List PyVal) (haveLabels : Bool) (labelTarget : PyVal)
    (countryLabels : List PyVal) : Option FieldOutcome :=
  if is_empty_or_nan std_value = true ∧ is_empty_or_nan country_value = true then
    some ⟨"matched", Option.none, Option.none, Option.none, Option.none⟩
  else if pyEq std_value country_value = false then
    let approx := find_approximate_match S std_value pool threshold
    if threshold ≤ approx.2 then
      some ⟨"not matched", approx.1, Option.none, Option.none, Option.none⟩
    else
      let best := find_best_match S std_value pool
      if threshold ≤ best.2 then
        some ⟨"not matched", Option.none, best.1, Option.none, Option.none⟩
      else
        let token := find_token_match S std_value pool
        if token.2 < threshold then
          if haveLabels = true then
            match find_label_match S labelTarget countryLabels threshold with
            | Option.none => Option.none
            | some lm =>
              some ⟨"not matched", Option.none, best.1, token.1, some lm.1⟩
          else some ⟨"not matched", Option.none, best.1, token.1, Option.none⟩
        else some ⟨"not matched", Option.none, best.1, token.1, Option.none⟩
  else some ⟨"matched", Option.none, Option.none, Option.none, Option.none⟩

/-- One discrepancy record.  Keys that a given record kind does not
carry in the Python dict are `Option.none` here. -/
structure Record where
  tab : String
  row : Nat
  name : PyVal
  list_name : Option PyVal
  column : Option String
  standard_value : Option PyVal
  country_value : Option PyVal
  issue : Option String
  matched : String
  approximate_match : Option PyVal
  best_match : Option PyVal
  token_match : Option PyVal
  label_match : Option String
  deriving DecidableEq, Repr

/-- The record emitted for a standard row with no country counterpart. -/
def missingRecord (tab : String) (idx : Nat) (nm : PyVal) (lst : Option PyVal)
    (issue : String) : Record :=
  ⟨tab, idx + 2, nm, lst, Option.none, Option.none, Option.none, some issue,
    "not matched", Option.none, Option.none, Option.none, Option.none⟩

/-- The record emitted for one compared field. -/
def fieldRecord (tab : String) (idx : Nat) (nm : PyVal) (lst : Option PyVal)
    (col : String) (sv cv : PyVal) (o : FieldOutcome) : Record :=
  ⟨tab, idx + 2, nm, lst, some col, some sv, some cv, Option.none,
    o.matched, o.approximate_match, o.best_match, o.token_match, o.label_match⟩

/-- The `for col in COLUMNS_TO_COMPARE` loop: skip a column missing from
either side, otherwise compare the field and emit its record. -/
def fieldLoop (S : Scorers) (threshold : Nat) (tab : String) (idx : Nat)
    (nm : PyVal) (lst : Option PyVal) (stdCols : List String) (std_row crow : Row)
    (ctry : Table) (stdLabelCols ctryLabelCols : List String)
    (countryLabels : List PyVal) : List String → Option (List Record)
  | [] => some []
  | col :: rest =>
    if stdCols.contains col = true ∧ ctry.cols.contains col = true then
      let std_value := getCell std_row col
      let country_value := getCell crow col
      let haveLabels := !stdLabelCols.isEmpty && !ctryLabelCols.isEmpty
      let labelTarget :=
        match stdLabelCols with
        | [] => std_value
        | c :: _ => getCell std_row c
      match compareField S threshold std_value country_value (columnPool ctry col)
          haveLabels labelTarget countryLabels with
      | Option.none => Option.none
      | some o =>
        match fieldLoop S threshold tab idx nm lst stdCols std_row crow ctry
            stdLabelCols ctryLabelCols countryLabels rest with
        | Option.none => Option.none
        | some rs => some (fieldRecord tab idx nm lst col std_value country_value o :: rs)
    else
      fieldLoop S threshold tab idx nm lst stdCols std_row crow ctry
        stdLabelCols ctryLabelCols countryLabels rest

/-- One standard survey row: skip structural types, look the row up by
`name` (first country occurrence wins), emit a missing record or the
field records. -/
def surveyRowRecords (S : Scorers) (threshold : Nat) (stdCols stdLabelCols : List String)
    (ctry : Table) (ctryLabelCols : List String) (idx : Nat) (std_row : Row) :
    Option (List Record) :=
  let std_name := getCell std_row "name"
  let std_type := if stdCols.contains "type" = true then getCell std_row "type" else PyVal.str ""
  if isSpecial std_type = true then some []
  else
    match ctry.rows.filter (fun r => pyEq (getCell r "name") std_name) with
    | [] => some [missingRecord "survey" idx std_name Option.none "Missing in country survey"]
    | crow :: _ =>
      fieldLoop S threshold "survey" idx std_name Option.none stdCols std_row crow ctry
        stdLabelCols ctryLabelCols (labelPool ctry ctryLabelCols)
        SURVEY_COLUMNS_TO_COMPARE

/-- One standard choices row: look up by the `(name, list_name)` pair. -/
def choicesRowRecords (S : Scorers) (threshold : Nat) (stdCols stdLabelCols : List String)
    (ctry : Table) (ctryLabelCols : List String) (idx : Nat) (std_row : Row) :
    Option (List Record) :=
  let std_name := getCell std_row "name"
  let std_list :=
    if stdCols.contains "list_name" = true then getCell std_row "list_name" else PyVal.str ""
  match ctry.rows.filter
      (fun r => pyEq (getCell r "name") std_name && pyEq (getCell r "list_name") std_list) with
  | [] => some [missingRecord "choices" idx std_name (some std_list) "Missing in country choices"]
  | crow :: _ =>
    fieldLoop S threshold "choices" idx std_name (some std_list) stdCols std_row crow ctry
      stdLabelCols ctryLabelCols (labelPool ctry ctryLabelCols)
      CHOICES_COLUMNS_TO_COMPARE

/-- `iterrows` over the standard rows, accumulating records in order and
propagating an exception from any row. -/
def rowsLoop (f : Nat → Row → Option (List Record)) : Nat → List Row → Option (List Record)
  | _, [] => some []
  | idx, r :: rs =>
    match f idx r with
    | Option.none => Option.none
    | some recs =>
      match rowsLoop f (idx + 1) rs with
      | Option.none => Option.none
      | some rest => some (recs ++ rest)

/-- Comparison of one country against the standard: survey rows first,
then choices rows. -/
def compare_country (S : Scorers) (threshold : Nat) (std_survey std_choices : Table)
    (sslc sclc : List String) (ctrySurveyRaw ctryChoicesRaw : Table) :
    Option (List Record) :=
  let cs := extract_variables ctrySurveyRaw (SURVEY_COLUMNS_TO_COMPARE ++ LABEL_COLUMNS)
  let cc := extract_variables ctryChoicesRaw (CHOICES_COLUMNS_TO_COMPARE ++ LABEL_COLUMNS)
  let cslc := get_available_label_columns cs
  let cclc := get_available_label_columns cc
  match rowsLoop (surveyRowRecords S threshold std_survey.cols sslc cs cslc) 0 std_survey.rows with
  | Option.none => Option.none
  | some a =>
    match rowsLoop (choicesRowRecords S threshold std_choices.cols sclc cc cclc) 0
        std_choices.rows with
    | Option.none => Option.none
    | some b => some (a ++ b)

/-- The per-country dict iteration: countries with an empty record list
are omitted from the result. -/
def countriesLoop (S : Scorers) (threshold : Nat) (std_survey std_choices : Table)
    (sslc sclc : List String) :
    List (String × Table × Table) → Option (List (String × List Record))
  | [] => some []
  | (c, sv, ch) :: rest =>
    match compare_country S threshold std_survey std_choices sslc sclc sv ch with
    | Option.none => Option.none
    | some recs =>
      match countriesLoop S threshold std_survey std_choices sslc sclc rest with
      | Option.none => Option.none
      | some acc => some (if recs.isEmpty then acc else (c, recs) :: acc)

set_option linter.unusedVariables false in
/-- `compare_with_standard`: extract the tracked columns of the standard
template once, then compare every country.  `verbose` only gates logging
in the source and has no effect on the result.  `Option.none` models an
uncaught exception. -/
def compare_with_standard (S : Scorers) (country_data : List (String × Table × Table))
    (standard_survey_raw standard_choices_raw : Table) (verbose : Bool)
    (threshold : Nat) : Option (List (String × List Record)) :=
  let std_survey := extract_variables standard_survey_raw (SURVEY_COLUMNS_TO_COMPARE ++ LABEL_COLUMNS)
  let std_choices := extract_variables standard_choices_raw (CHOICES_COLUMNS_TO_COMPARE ++ LABEL_COLUMNS)
  let sslc := get_available_label_columns std_survey
  let sclc := get_available_label_columns std_choices
  countriesLoop S threshold std_survey std_choices sslc sclc country_data


/-! ## Specification-side helpers for the candidate-search characterization -/

/-- Effective score of a candidate in a scan: 0 when either string form
is empty (the scan skips it), the scorer's value otherwise. -/
def effScore (toStr : PyVal → String) (score : String → String → Nat)
    (vs : String) (c : PyVal) : Nat :=
  if vs = "" ∨ toStr c = "" then 0 else score vs (toStr c)

/-- Maximum effective score among candidates passing `accept` (0 when
none qualifies). -/
def qualMax (eff : PyVal → Nat) (accept : Nat → Bool) : List PyVal → Nat
  | [] => 0
  | c :: cs =>
    if accept (eff c) = true then max (eff c) (qualMax eff accept cs)
    else qualMax eff accept cs

/-- What a first-seen-wins maximal search returns: the qualifying
maximum score, together with the first candidate attaining it (or no
candidate when that maximum is 0). -/
def argmaxSpec (eff : PyVal → Nat) (accept : Nat → Bool) (cands : List PyVal) :
    Option PyVal × Nat :=
  ((if qualMax eff accept cands = 0 then Option.none
    else cands.find? (fun c => eff c == qualMax eff accept cands)),
   qualMax eff accept cands)

/-- The scan step, re-expressed through the effective score. -/
def simpleStep (eff : PyVal → Nat) (accept : Nat → Bool)
    (acc : Option PyVal × Nat) (c : PyVal) : Option PyVal × Nat :=
  if acc.2 < eff c ∧ accept (eff c) = true then (some c, eff c) else acc

/-- Constant scorers, used to instantiate the abstract scorer bundle on
concrete evaluations. -/
def constScorers (n : Nat) : Scorers :=
  ⟨fun _ _ => n, fun _ _ => n, fun _ _ => n, fun _ _ => n⟩

/-- Record number `j` of country number `i` in a compare result. -/
def recAt (o : Option (List (String × List Record))) (i j : Nat) : Option Record :=
  match o with
  | some l =>
    match l.get? i with
    | some p => p.2.get? j
    | Option.none => Option.none
  | Option.none => Option.none

/-- An empty table. -/
def emptyTable : Table := ⟨[], []⟩

/-- The cascade invariant on a field outcome claimed by the spec:
matched outcomes carry no escalation fields, and a populated approximate
field excludes the other three. -/
def outCascadeInv (o : FieldOutcome) : Prop :=
  (o.matched = "matched" → o.approximate_match = Option.none ∧ o.best_match = Option.none ∧
    o.token_match = Option.none ∧ o.label_match = Option.none) ∧
  (o.approximate_match.isSome = true → o.best_match = Option.none ∧
    o.token_match = Option.none ∧ o.label_match = Option.none)

/-- The same invariant read off a discrepancy record. -/
def recCascadeInv (r : Record) : Prop :=
  (r.matched = "matched" → r.approximate_match = Option.none ∧ r.best_match = Option.none ∧
    r.token_match = Option.none ∧ r.label_match = Option.none) ∧
  (r.approximate_match.isSome = true → r.best_match = Option.none ∧
    r.token_match = Option.none ∧ r.label_match = Option.none)

/-- One-row survey table whose row compares equal to itself. -/
def wT : Table := ⟨["name"], [[("name", PyVal.str "q1")]]⟩

/-- Standard survey table: one row named `q1` of type `text`. -/
def c1std : Table := ⟨["name", "type"], [[("name", PyVal.str "q1"), ("type", PyVal.str "text")]]⟩

/-- Country survey table: row `q1` with differing type `note`. -/
def c1ctry : Table := ⟨["name", "type"], [[("name", PyVal.str "q1"), ("type", PyVal.str "note")]]⟩

/-- Scorers constantly 10 (all stages sub-threshold at 90). -/
def lowScorers : Scorers := constScorers 10

/-- Standard survey with one label column carrying a label. -/
def c5std : Table :=
  ⟨["name", "type", "label::English"],
    [[("name", PyVal.str "q1"), ("type", PyVal.str "text"),
      ("label::English", PyVal.str "Question")]]⟩

/-- Country survey whose label column exists but holds only NaN, so the
label pool is empty. -/
def c5ctry : Table :=
  ⟨["name", "type", "label::English"],
    [[("name", PyVal.str "q1"), ("type", PyVal.str "note"),
      ("label::English", PyVal.nan)]]⟩

/-- Standard survey row named like a country structural row. -/
def c6std : Table :=
  ⟨["name", "type"], [[("name", PyVal.str "g1"), ("type", PyVal.str "text")]]⟩

/-- Country survey whose row `g1` is structural (`begin_group`). -/
def c6ctry : Table :=
  ⟨["name", "type"], [[("name", PyVal.str "g1"), ("type", PyVal.str "begin_group")]]⟩

/-- Scorers separating the four label-stage scorers: exact ratio scores
`"x"` at 80, token-set scores `"y"` at 40, everything else 10. -/
def c4Scorers : Scorers :=
  ⟨fun _ c => if c = "x" then 80 else 10,
   fun _ _ => 10,
   fun _ _ => 10,
   fun _ c => if c = "y" then 40 else 10⟩

/-- Standard survey with one row `q1`. -/
def c10std : Table :=
  ⟨["name", "type"], [[("name", PyVal.str "q1"), ("type", PyVal.str "alpha")]]⟩

/-- Country survey with two rows sharing the name `q1`. -/
def c10ctry : Table :=
  ⟨["name", "type"],
    [[("name", PyVal.str "q1"), ("type", PyVal.str "text1")],
     [("name", PyVal.str "q1"), ("type", PyVal.str "text2")]]⟩

/-- ASCII uppercase test by code point. -/
def isUpperAscii (c : Char) : Bool := decide (65 ≤ c.toNat ∧ c.toNat ≤ 90)

/-- A canonical output character: a single space, or an alphanumeric
character that is neither ASCII-uppercase nor an underscore. -/
def canonChar (c : Char) : Bool :=
  c == ' ' || (c.isAlphanum && !isUpperAscii c && !(c == '_'))

/-- No two adjacent spaces. -/
def noDouble : List Char → Bool
  | [] => true
  | [_] => true
  | a :: b :: rest => !(a == ' ' && b == ' ') && noDouble (b :: rest)

/-- A canonical string: canonical characters only, no space runs, no
leading or trailing space. -/
def canonicalStr (s : String) : Bool :=
  s.data.all canonChar && noDouble s.data &&
    !(s.data.head? == some ' ') && !(s.data.getLast? == some ' ')

/-! ## Theorems -/

theorem not_matched_ne_matched : ("not matched" : String) = "matched" → False := by decide

theorem isSome_none_false {α : Type} {C : Prop}
    (h : (Option.none : Option α).isSome = true) : C := by
  simp at h


theorem qualMax_accept (eff : PyVal → Nat) (accept : Nat → Bool) :
    ∀ l : List PyVal, 0 < qualMax eff accept l → accept (qualMax eff accept l) = true := by
  intro l
  induction l with
  | nil => intro h; simp [qualMax] at h
  | cons c cs ih =>
    intro h
    by_cases hacc : accept (eff c) = true
    · simp only [qualMax, hacc, if_true] at h ⊢
      rcases Nat.le_total (eff c) (qualMax eff accept cs) with hle | hle
      · rw [Nat.max_eq_right hle] at h ⊢
        exact ih h
      · rw [Nat.max_eq_left hle] at h ⊢
        exact hacc
    · simp only [qualMax, hacc, if_false] at h ⊢
      exact ih h

theorem searchStep_eq_simpleStep (toStr : PyVal → String) (score : String → String → Nat)
    (accept : Nat → Bool) (vs : String) :
    searchStep toStr score accept vs = simpleStep (effScore toStr score vs) accept := by
  funext acc c
  obtain ⟨b, m⟩ := acc
  by_cases hskip : vs = "" ∨ toStr c = ""
  · have heff : effScore toStr score vs c = 0 := by simp [effScore, hskip]
    simp [searchStep, simpleStep, hskip, heff]
  · have heff : effScore toStr score vs c = score vs (toStr c) := by
      simp [effScore, hskip]
    simp [searchStep, simpleStep, hskip, heff]

theorem simpleLoop_go (eff : PyVal → Nat) (accept : Nat → Bool) :
    ∀ (cands : List PyVal) (b : Option PyVal) (m : Nat),
    List.foldl (simpleStep eff accept) (b, m) cands =
      ((if m < qualMax eff accept cands then
          cands.find? (fun c => eff c == qualMax eff accept cands)
        else b),
       max m (qualMax eff accept cands)) := by
  intro cands
  induction cands with
  | nil =>
    intro b m
    simp [qualMax]
  | cons c cs ih =>
    intro b m
    rw [List.foldl_cons]
    by_cases hacc : accept (eff c) = true
    · have hQ : qualMax eff accept (c :: cs) = max (eff c) (qualMax eff accept cs) := by
        simp [qualMax, hacc]
      rw [hQ]
      by_cases hm : m < eff c
      · have hstep : simpleStep eff accept (b, m) c = (some c, eff c) := by
          simp [simpleStep, hm, hacc]
        rw [hstep, ih]
        simp only [Prod.mk.injEq]
        refine ⟨?_, by omega⟩
        rcases Nat.lt_or_ge (eff c) (qualMax eff accept cs) with hlt | hge
        · rw [if_pos hlt, if_pos (show m < max (eff c) (qualMax eff accept cs) by omega),
            show max (eff c) (qualMax eff accept cs) = qualMax eff accept cs by omega,
            List.find?_cons_of_neg]
          simp only [beq_iff_eq]
          omega
        · rw [if_neg (by omega), if_pos (show m < max (eff c) (qualMax eff accept cs) by omega),
            show max (eff c) (qualMax eff accept cs) = eff c by omega,
            List.find?_cons_of_pos]
          simp
      · have hstep : simpleStep eff accept (b, m) c = (b, m) := by
          simp only [simpleStep]
          rw [if_neg (fun hand => hm hand.1)]
        rw [hstep, ih]
        simp only [Prod.mk.injEq]
        have hle : eff c ≤ m := Nat.not_lt.mp hm
        refine ⟨?_, by omega⟩
        rcases Nat.lt_or_ge m (qualMax eff accept cs) with hmQ | hmQ
        · rw [if_pos hmQ, if_pos (show m < max (eff c) (qualMax eff accept cs) by omega),
            show max (eff c) (qualMax eff accept cs) = qualMax eff accept cs by omega,
            List.find?_cons_of_neg]
          simp only [beq_iff_eq]
          omega
        · rw [if_neg (by omega), if_neg (show ¬ m < max (eff c) (qualMax eff accept cs) by omega)]
    · have hacc' : accept (eff c) = false := by
        revert hacc; cases accept (eff c) <;> simp
      have hQ : qualMax eff accept (c :: cs) = qualMax eff accept cs := by
        simp [qualMax, hacc']
      rw [hQ]
      have hstep : simpleStep eff accept (b, m) c = (b, m) := by
        simp only [simpleStep]
        rw [if_neg (fun hand => (by simp [hacc'] at hand : False))]
      rw [hstep, ih]
      simp only [Prod.mk.injEq]
      refine ⟨?_, by trivial⟩
      rcases Nat.lt_or_ge m (qualMax eff accept cs) with hmQ | hmQ
      · rw [if_pos hmQ, if_pos hmQ]
        have haccQ : accept (qualMax eff accept cs) = true :=
          qualMax_accept _ _ _ (Nat.lt_of_le_of_lt (Nat.zero_le m) hmQ)
        rw [List.find?_cons_of_neg]
        simp only [beq_iff_eq]
        intro he
        rw [he, haccQ] at hacc'
        simp at hacc'
      · rw [if_neg (by omega), if_neg (by omega)]

theorem searchLoop_eq (toStr : PyVal → String) (score : String → String → Nat)
    (accept : Nat → Bool) (vs : String) (cands : List PyVal) :
    searchLoop toStr score accept vs cands =
      argmaxSpec (effScore toStr score vs) accept cands := by
  unfold searchLoop argmaxSpec
  rw [searchStep_eq_simpleStep, simpleLoop_go]
  rcases Nat.eq_zero_or_pos (qualMax (effScore toStr score vs) accept cands) with h0 | hpos
  · rw [h0]
    simp
  · rw [if_pos hpos, if_neg (Nat.ne_of_gt hpos)]
    simp only [Prod.mk.injEq]
    exact ⟨by trivial, by omega⟩

/-- **C7** (counterexample): with a scorer giving every pair score 50 and
threshold 90, `find_approximate_match` on the one-candidate pool `["b"]`
returns `(None, 0)` even though the maximal-scoring candidate is `"b"`
with score 50 — so the claim that Candidate Search returns the candidate
with the strictly maximum score together with that score is false for
`find_approximate_match`, which filters by the threshold inside the scan. -/
theorem C7_counterexample :
    find_approximate_match (constScorers 50) (PyVal.str "a") [PyVal.str "b"] 90 =
      (Option.none, 0) ∧
    (constScorers 50).token_set_ratio (strOrEmpty (PyVal.str "a"))
      (strOrEmpty (PyVal.str "b")) = 50 := by
  exact ⟨rfl, rfl⟩

/-- **C7** (amended): all three candidate searches return `(None, 0)` on an
empty pool.  `find_best_match` and `find_token_match` return the
qualifying maximum score together with the first-encountered candidate
attaining it (no candidate when that maximum is 0, which covers the
empty-pool and all-skipped cases); `find_approximate_match` does the
same but only among candidates whose score reaches the threshold,
returning `(None, 0)` when none does. -/
theorem C7_amended :
    (∀ (S : Scorers) (v : PyVal) (thr : Nat),
        find_approximate_match S v [] thr = (Option.none, 0)) ∧
    (∀ (S : Scorers) (v : PyVal), find_best_match S v [] = (Option.none, 0)) ∧
    (∀ (S : Scorers) (v : PyVal), find_token_match S v [] = (Option.none, 0)) ∧
    (∀ (S : Scorers) (v : PyVal) (thr : Nat) (cands : List PyVal),
        find_approximate_match S v cands thr =
          argmaxSpec (effScore strOrEmpty S.token_set_ratio (strOrEmpty v))
            (fun s => decide (thr ≤ s)) cands) ∧
    (∀ (S : Scorers) (v : PyVal) (cands : List PyVal),
        find_best_match S v cands =
          argmaxSpec (effScore normStr S.partial_ratio (normStr v)) (fun _ => true) cands) ∧
    (∀ (S : Scorers) (v : PyVal) (cands : List PyVal),
        find_token_match S v cands =
          argmaxSpec (effScore normStr S.token_sort_ratio (normStr v)) (fun _ => true) cands) := by
  refine ⟨fun S v thr => rfl, fun S v => rfl, fun S v => rfl, ?_, ?_, ?_⟩
  · intro S v thr cands
    exact searchLoop_eq _ _ _ _ _
  · intro S v cands
    exact searchLoop_eq _ _ _ _ _
  · intro S v cands
    exact searchLoop_eq _ _ _ _ _

/-- **C2**: for a differing, not-both-empty field, the cascade tries the
four strategies in fixed order with threshold gating: stage 1
(`find_approximate_match`, token-set-ratio over raw values) wins when its
score reaches the threshold and every later field stays null; stage 2
(`find_best_match`, partial-ratio over normalized values) is reached
exactly when stage 1 failed and wins when its score reaches the
threshold; stage 3 (`find_token_match`, token-sort-ratio over normalized
values) is reached exactly when stages 1-2 failed; the label stage is
reached exactly when stages 1-3 failed (label data assumed available).
The last three conjuncts pin the strategy of each stage: on a singleton
pool the stage scores are exactly token-set-ratio of the raw strings,
partial-ratio of the normalized strings, and token-sort-ratio of the
normalized strings. -/
theorem C2 (S : Scorers) (thr : Nat) (sv cv : PyVal) (pool : List PyVal)
    (lt2 : PyVal) (cl : List PyVal)
    (hne : pyEq sv cv = false)
    (hnb : ¬(is_empty_or_nan sv = true ∧ is_empty_or_nan cv = true)) :
    ((thr ≤ (find_approximate_match S sv pool thr).2 →
        compareField S thr sv cv pool true lt2 cl =
          some ⟨"not matched", (find_approximate_match S sv pool thr).1,
            Option.none, Option.none, Option.none⟩) ∧
     ((find_approximate_match S sv pool thr).2 < thr →
        thr ≤ (find_best_match S sv pool).2 →
        compareField S thr sv cv pool true lt2 cl =
          some ⟨"not matched", Option.none, (find_best_match S sv pool).1,
            Option.none, Option.none⟩) ∧
     ((find_approximate_match S sv pool thr).2 < thr →
        (find_best_match S sv pool).2 < thr →
        thr ≤ (find_token_match S sv pool).2 →
        compareField S thr sv cv pool true lt2 cl =
          some ⟨"not matched", Option.none, (find_best_match S sv pool).1,
            (find_token_match S sv pool).1, Option.none⟩) ∧
     ((find_approximate_match S sv pool thr).2 < thr →
        (find_best_match S sv pool).2 < thr →
        (find_token_match S sv pool).2 < thr →
        compareField S thr sv cv pool true lt2 cl =
          (find_label_match S lt2 cl thr).map
            (fun p => ⟨"not matched", Option.none, (find_best_match S sv pool).1,
              (find_token_match S sv pool).1, some p.1⟩))) ∧
    ((strOrEmpty sv ≠ "" → ∀ c : PyVal, strOrEmpty c ≠ "" →
        (find_approximate_match S sv [c] thr).2 =
          if thr ≤ S.token_set_ratio (strOrEmpty sv) (strOrEmpty c) then
            S.token_set_ratio (strOrEmpty sv) (strOrEmpty c)
          else 0) ∧
     (normStr sv ≠ "" → ∀ c : PyVal, normStr c ≠ "" →
        (find_best_match S sv [c]).2 = S.partial_ratio (normStr sv) (normStr c)) ∧
     (normStr sv ≠ "" → ∀ c : PyVal, normStr c ≠ "" →
        (find_token_match S sv [c]).2 = S.token_sort_ratio (normStr sv) (normStr c))) := by
  constructor
  · refine ⟨?_, ?_, ?_, ?_⟩
    · intro h1
      simp only [compareField]
      rw [if_neg hnb, if_pos hne, if_pos h1]
    · intro h1 h2
      simp only [compareField]
      rw [if_neg hnb, if_pos hne, if_neg (Nat.not_le.mpr h1), if_pos h2]
    · intro h1 h2 h3
      simp only [compareField]
      rw [if_neg hnb, if_pos hne, if_neg (Nat.not_le.mpr h1), if_neg (Nat.not_le.mpr h2),
        if_neg (Nat.not_lt.mpr h3)]
    · intro h1 h2 h3
      simp only [compareField]
      rw [if_neg hnb, if_pos hne, if_neg (Nat.not_le.mpr h1), if_neg (Nat.not_le.mpr h2),
        if_pos h3, if_pos trivial]
      cases hfl : find_label_match S lt2 cl thr with
      | none => simp
      | some p => simp
  · refine ⟨?_, ?_, ?_⟩
    · intro h1 c h2
      simp only [find_approximate_match, searchLoop, List.foldl_cons, List.foldl_nil, searchStep]
      rw [if_neg (show ¬(strOrEmpty sv = "" ∨ strOrEmpty c = "") by simp [h1, h2])]
      by_cases hth : thr ≤ S.token_set_ratio (strOrEmpty sv) (strOrEmpty c)
      · rw [if_pos hth]
        by_cases hz : S.token_set_ratio (strOrEmpty sv) (strOrEmpty c) = 0
        · simp [hz]
        · rw [if_pos ⟨Nat.pos_of_ne_zero hz, by simp [hth]⟩]
      · rw [if_neg hth, if_neg (fun hand => hth (of_decide_eq_true hand.2))]
    · intro h1 c h2
      simp only [find_best_match, searchLoop, List.foldl_cons, List.foldl_nil, searchStep]
      rw [if_neg (show ¬(normStr sv = "" ∨ normStr c = "") by simp [h1, h2])]
      by_cases hz : S.partial_ratio (normStr sv) (normStr c) = 0
      · simp [hz]
      · rw [if_pos ⟨Nat.pos_of_ne_zero hz, trivial⟩]
    · intro h1 c h2
      simp only [find_token_match, searchLoop, List.foldl_cons, List.foldl_nil, searchStep]
      rw [if_neg (show ¬(normStr sv = "" ∨ normStr c = "") by simp [h1, h2])]
      by_cases hz : S.token_sort_ratio (normStr sv) (normStr c) = 0
      · simp [hz]
      · rw [if_pos ⟨Nat.pos_of_ne_zero hz, trivial⟩]

/-- **C2** (witness): concrete instantiation — scorers constantly 95,
threshold 90 on the field `"abc"` versus `"xyz"` with pool `["xyz"]`:
stage 1 clears the threshold and the emitted outcome carries only the
approximate match. -/
theorem C2_witness :
    compareField (constScorers 95) 90 (PyVal.str "abc") (PyVal.str "xyz") [PyVal.str "xyz"]
      true (PyVal.str "abc") [] =
      some ⟨"not matched", some (PyVal.str "xyz"), Option.none, Option.none, Option.none⟩ := by
  have h := ((C2 (constScorers 95) 90 (PyVal.str "abc") (PyVal.str "xyz") [PyVal.str "xyz"]
    (PyVal.str "abc") [] (by decide) (by decide)).1).1 (by decide)
  rw [h]
  rfl

theorem compareField_inv (S : Scorers) (thr : Nat) (sv cv : PyVal) (pool : List PyVal)
    (hl : Bool) (lt2 : PyVal) (cl : List PyVal) (o : FieldOutcome)
    (h : compareField S thr sv cv pool hl lt2 cl = some o) : outCascadeInv o := by
  simp only [compareField] at h
  split at h
  · cases h
    exact ⟨fun _ => ⟨rfl, rfl, rfl, rfl⟩, fun ha => isSome_none_false ha⟩
  · split at h
    · split at h
      · cases h
        exact ⟨fun hm => (not_matched_ne_matched hm).elim, fun _ => ⟨rfl, rfl, rfl⟩⟩
      · split at h
        · cases h
          exact ⟨fun hm => (not_matched_ne_matched hm).elim, fun ha => isSome_none_false ha⟩
        · split at h
          · split at h
            · split at h
              · exact Option.noConfusion h
              · cases h
                exact ⟨fun hm => (not_matched_ne_matched hm).elim, fun ha => isSome_none_false ha⟩
            · cases h
              exact ⟨fun hm => (not_matched_ne_matched hm).elim, fun ha => isSome_none_false ha⟩
          · cases h
            exact ⟨fun hm => (not_matched_ne_matched hm).elim, fun ha => isSome_none_false ha⟩
    · cases h
      exact ⟨fun _ => ⟨rfl, rfl, rfl, rfl⟩, fun ha => isSome_none_false ha⟩

theorem compareField_approx_threshold (S : Scorers) (thr : Nat) (sv cv : PyVal)
    (pool : List PyVal) (hl : Bool) (lt2 : PyVal) (cl : List PyVal) (o : FieldOutcome)
    (h : compareField S thr sv cv pool hl lt2 cl = some o)
    (ha : o.approximate_match.isSome = true) :
    thr ≤ (find_approximate_match S sv pool thr).2 := by
  simp only [compareField] at h
  split at h
  · cases h; simp at ha
  · split at h
    · split at h
      · assumption
      · split at h
        · cases h; simp at ha
        · split at h
          · split at h
            · split at h
              · exact Option.noConfusion h
              · cases h; simp at ha
            · cases h; simp at ha
          · cases h; simp at ha
    · cases h; simp at ha

theorem fieldRecord_inv (tab : String) (idx : Nat) (nm : PyVal) (lst : Option PyVal)
    (col : String) (sv cv : PyVal) (o : FieldOutcome) (h : outCascadeInv o) :
    recCascadeInv (fieldRecord tab idx nm lst col sv cv o) := h

theorem missingRecord_inv (tab : String) (idx : Nat) (nm : PyVal) (lst : Option PyVal)
    (iss : String) : recCascadeInv (missingRecord tab idx nm lst iss) :=
  ⟨fun hm => (not_matched_ne_matched hm).elim, fun ha => isSome_none_false ha⟩

theorem fieldLoop_mem (S : Scorers) (thr : Nat) (tab : String) (idx : Nat) (nm : PyVal)
    (lst : Option PyVal) (stdCols : List String) (std_row crow : Row) (ctry : Table)
    (slc clc : List String) (cl : List PyVal) :
    ∀ (cols : List String) (rs : List Record) (r : Record),
      fieldLoop S thr tab idx nm lst stdCols std_row crow ctry slc clc cl cols = some rs →
      r ∈ rs → recCascadeInv r := by
  intro cols
  induction cols with
  | nil =>
    intro rs r h hr
    simp only [fieldLoop] at h
    cases h
    exact absurd hr (List.not_mem_nil r)
  | cons col rest ih =>
    intro rs r h hr
    simp only [fieldLoop] at h
    split at h
    · split at h
      · exact Option.noConfusion h
      · rename_i o heq
        split at h
        · exact Option.noConfusion h
        · rename_i rs2 heq2
          cases h
          rcases List.mem_cons.mp hr with h1 | h2
          · subst h1
            exact fieldRecord_inv _ _ _ _ _ _ _ _
              (compareField_inv _ _ _ _ _ _ _ _ _ heq)
          · exact ih rs2 r heq2 h2
    · exact ih rs r h hr

theorem surveyRowRecords_inv (S : Scorers) (thr : Nat) (stdCols slc : List String)
    (ctry : Table) (clc : List String) (idx : Nat) (std_row : Row) :
    ∀ (rs : List Record) (r : Record),
      surveyRowRecords S thr stdCols slc ctry clc idx std_row = some rs →
      r ∈ rs → recCascadeInv r := by
  intro rs r h hr
  simp only [surveyRowRecords] at h
  by_cases hsp : isSpecial (if stdCols.contains "type" = true then getCell std_row "type"
      else PyVal.str "") = true
  · rw [if_pos hsp] at h
    cases h
    exact absurd hr (List.not_mem_nil r)
  · rw [if_neg hsp] at h
    cases hfil : List.filter (fun rr => pyEq (getCell rr "name") (getCell std_row "name"))
        ctry.rows with
    | nil =>
      rw [hfil] at h
      cases h
      rcases List.mem_cons.mp hr with h1 | h2
      · subst h1
        exact missingRecord_inv _ _ _ _ _
      · exact absurd h2 (List.not_mem_nil r)
    | cons crow crest =>
      rw [hfil] at h
      exact fieldLoop_mem S thr "survey" idx _ _ stdCols std_row crow ctry slc clc _
        SURVEY_COLUMNS_TO_COMPARE rs r h hr

theorem choicesRowRecords_inv (S : Scorers) (thr : Nat) (stdCols slc : List String)
    (ctry : Table) (clc : List String) (idx : Nat) (std_row : Row) :
    ∀ (rs : List Record) (r : Record),
      choicesRowRecords S thr stdCols slc ctry clc idx std_row = some rs →
      r ∈ rs → recCascadeInv r := by
  intro rs r h hr
  simp only [choicesRowRecords] at h
  cases hfil : List.filter (fun rr => pyEq (getCell rr "name") (getCell std_row "name") &&
      pyEq (getCell rr "list_name") (if stdCols.contains "list_name" = true then
        getCell std_row "list_name" else PyVal.str "")) ctry.rows with
  | nil =>
    rw [hfil] at h
    cases h
    rcases List.mem_cons.mp hr with h1 | h2
    · subst h1
      exact missingRecord_inv _ _ _ _ _
    · exact absurd h2 (List.not_mem_nil r)
  | cons crow crest =>
    rw [hfil] at h
    exact fieldLoop_mem S thr "choices" idx _ _ stdCols std_row crow ctry slc clc _
      CHOICES_COLUMNS_TO_COMPARE rs r h hr

theorem rowsLoop_mem (f : Nat → Row → Option (List Record)) (P : Record → Prop)
    (hf : ∀ (idx : Nat) (row : Row) (rs : List Record),
      f idx row = some rs → ∀ r ∈ rs, P r) :
    ∀ (rows : List Row) (idx : Nat) (out : List Record),
      rowsLoop f idx rows = some out → ∀ r ∈ out, P r := by
  intro rows
  induction rows with
  | nil =>
    intro idx out h r hr
    cases h
    exact absurd hr (List.not_mem_nil r)
  | cons row rest ih =>
    intro idx out h r hr
    simp only [rowsLoop] at h
    split at h
    · exact Option.noConfusion h
    · rename_i recs heq
      split at h
      · exact Option.noConfusion h
      · rename_i rest2 heq2
        cases h
        rcases List.mem_append.mp hr with h1 | h2
        · exact hf idx row recs heq r h1
        · exact ih (idx + 1) rest2 heq2 r h2

theorem compare_country_inv (S : Scorers) (thr : Nat) (ss sc : Table)
    (sslc sclc : List String) (csraw ccraw : Table) :
    ∀ (out : List Record) (r : Record),
      compare_country S thr ss sc sslc sclc csraw ccraw = some out →
      r ∈ out → recCascadeInv r := by
  intro out r h hr
  simp only [compare_country] at h
  split at h
  · exact Option.noConfusion h
  · rename_i a heq1
    split at h
    · exact Option.noConfusion h
    · rename_i b heq2
      cases h
      rcases List.mem_append.mp hr with h1 | h2
      · exact rowsLoop_mem _ recCascadeInv
          (fun idx row rs hh rr hrr => surveyRowRecords_inv _ _ _ _ _ _ idx row rs rr hh hrr)
          ss.rows 0 a heq1 r h1
      · exact rowsLoop_mem _ recCascadeInv
          (fun idx row rs hh rr hrr => choicesRowRecords_inv _ _ _ _ _ _ idx row rs rr hh hrr)
          sc.rows 0 b heq2 r h2

theorem countriesLoop_mem (S : Scorers) (thr : Nat) (ss sc : Table)
    (sslc sclc : List String) :
    ∀ (cd : List (String × Table × Table)) (out : List (String × List Record))
      (c : String) (recs : List Record) (r : Record),
      countriesLoop S thr ss sc sslc sclc cd = some out →
      (c, recs) ∈ out → r ∈ recs → recCascadeInv r := by
  intro cd
  induction cd with
  | nil =>
    intro out c recs r h hm _
    cases h
    exact absurd hm (List.not_mem_nil _)
  | cons p rest ih =>
    obtain ⟨cc, sv, ch⟩ := p
    intro out c recs r h hm hr
    simp only [countriesLoop] at h
    split at h
    · exact Option.noConfusion h
    · rename_i recs2 heq
      split at h
      · exact Option.noConfusion h
      · rename_i acc heq2
        cases h
        split at hm
        · exact ih acc c recs r heq2 hm hr
        · rcases List.mem_cons.mp hm with h1 | h2
          · have hr2 : recs = recs2 := congrArg Prod.snd h1
            subst hr2
            exact compare_country_inv _ _ _ _ _ _ _ _ recs r heq hr
          · exact ih acc c recs r heq2 h2 hr

/-- **C1** (counterexample): standard row `(q1, text)` against country row
`(q1, note)`, threshold 90, every scorer constantly 50: the emitted
`type` record has status `"not matched"` with BOTH `best_match` and
`token_match` non-null (sub-threshold results are not reset when the
cascade moves on), refuting "at most one of the four escalation fields
is non-null, and a non-null best/token score reaches the threshold". -/
theorem C1_counterexample :
    (recAt (compare_with_standard (constScorers 50) [("XX", c1ctry, emptyTable)] c1std
        emptyTable true 90) 0 1).map
      (fun r => r.matched == "not matched" && r.best_match.isSome && r.token_match.isSome) =
      some true ∧
    (find_best_match (constScorers 50) (PyVal.str "text") (columnPool c1ctry "type")).2 = 50 ∧
    (50 : Nat) < 90 := by
  exact ⟨rfl, rfl, by decide⟩

/-- **C1** (amended): every record emitted by `compare_with_standard`
satisfies: a `"matched"` record has all four escalation fields null, and
a record with non-null `approximate_match` has the other three null;
moreover `approximate_match` is populated only when the approximate
stage's score reached the threshold.  (Sub-threshold best/token results,
however, remain populated when the cascade proceeds past those stages,
so up to three of best/token/label can be non-null simultaneously.) -/
theorem C1_amended :
    (∀ (S : Scorers) (cd : List (String × Table × Table)) (ssr scr : Table) (v : Bool)
        (thr : Nat) (out : List (String × List Record)) (c : String) (recs : List Record)
        (r : Record),
        compare_with_standard S cd ssr scr v thr = some out →
        (c, recs) ∈ out → r ∈ recs → recCascadeInv r) ∧
    (∀ (S : Scorers) (thr : Nat) (sv cv : PyVal) (pool : List PyVal) (hl : Bool)
        (lt2 : PyVal) (cl : List PyVal) (o : FieldOutcome),
        compareField S thr sv cv pool hl lt2 cl = some o →
        o.approximate_match.isSome = true →
        thr ≤ (find_approximate_match S sv pool thr).2) := by
  constructor
  · intro S cd ssr scr v thr out c recs r h hm hr
    simp only [compare_with_standard] at h
    exact countriesLoop_mem _ _ _ _ _ _ cd out c recs r h hm hr
  · exact compareField_approx_threshold

/-- **C1** (witness): the amended invariant evaluated on the concrete
matched record produced by comparing a one-row table with itself. -/
theorem C1_witness :
    recCascadeInv ⟨"survey", 2, PyVal.str "q1", Option.none, some "name",
      some (PyVal.str "q1"), some (PyVal.str "q1"), Option.none, "matched",
      Option.none, Option.none, Option.none, Option.none⟩ :=
  C1_amended.1 (constScorers 50) [("XX", wT, emptyTable)] wT emptyTable true 90
    [("XX", [⟨"survey", 2, PyVal.str "q1", Option.none, some "name",
      some (PyVal.str "q1"), some (PyVal.str "q1"), Option.none, "matched",
      Option.none, Option.none, Option.none, Option.none⟩])]
    "XX"
    [⟨"survey", 2, PyVal.str "q1", Option.none, some "name",
      some (PyVal.str "q1"), some (PyVal.str "q1"), Option.none, "matched",
      Option.none, Option.none, Option.none, Option.none⟩]
    ⟨"survey", 2, PyVal.str "q1", Option.none, some "name",
      some (PyVal.str "q1"), some (PyVal.str "q1"), Option.none, "matched",
      Option.none, Option.none, Option.none, Option.none⟩
    rfl (by simp) (by simp)

theorem matched_ne_not_matched : ("matched" : String) = "not matched" → False := by decide

/-- **C3** (counterexample): comparing a one-row table with itself emits a
record for the equal field `name` with status `"matched"` — so the claim
that a record is produced only for fields that are not a silent match
(equal fields producing no record) is false. -/
theorem C3_counterexample :
    (recAt (compare_with_standard (constScorers 50) [("XX", wT, emptyTable)] wT emptyTable
        true 90) 0 0).map
      (fun r => (r.standard_value == r.country_value) && (r.matched == "matched") &&
        r.column.isSome) = some true := by
  rfl

/-- **C3** (amended): a record is emitted for every compared field,
matched or not.  The status is `"not matched"` exactly when the field is
not a silent match: a field whose raw values are Python-equal, or both
empty/missing, gets status `"matched"`, and a field whose raw values are
unequal and not both empty gets status `"not matched"` (so no record
ever pairs `"not matched"` with equal raw values).  A standard row whose
key has no country counterpart yields exactly the single missing record,
and a present row yields exactly one record per tracked column present
in both tables. -/
theorem C3_amended :
    (∀ (S : Scorers) (thr : Nat) (sv cv : PyVal) (pool : List PyVal) (hl : Bool)
        (lt2 : PyVal) (cl : List PyVal) (o : FieldOutcome),
        compareField S thr sv cv pool hl lt2 cl = some o →
        (pyEq sv cv = true → o.matched = "matched") ∧
        (is_empty_or_nan sv = true ∧ is_empty_or_nan cv = true → o.matched = "matched") ∧
        (o.matched = "not matched" → pyEq sv cv = false ∧
          ¬(is_empty_or_nan sv = true ∧ is_empty_or_nan cv = true)) ∧
        (pyEq sv cv = false →
          ¬(is_empty_or_nan sv = true ∧ is_empty_or_nan cv = true) →
          o.matched = "not matched")) ∧
    (∀ (S : Scorers) (thr : Nat) (stdCols slc : List String) (ctry : Table)
        (clc : List String) (idx : Nat) (std_row : Row),
        isSpecial (if stdCols.contains "type" = true then getCell std_row "type"
          else PyVal.str "") = false →
        List.filter (fun rr => pyEq (getCell rr "name") (getCell std_row "name"))
          ctry.rows = [] →
        surveyRowRecords S thr stdCols slc ctry clc idx std_row =
          some [missingRecord "survey" idx (getCell std_row "name") Option.none
            "Missing in country survey"]) ∧
    (∀ (S : Scorers) (thr : Nat) (tab : String) (idx : Nat) (nm : PyVal)
        (lst : Option PyVal) (stdCols : List String) (std_row crow : Row) (ctry : Table)
        (slc clc : List String) (cl : List PyVal) (cols : List String) (rs : List Record),
        fieldLoop S thr tab idx nm lst stdCols std_row crow ctry slc clc cl cols = some rs →
        rs.length =
          (cols.filter (fun col => stdCols.contains col && ctry.cols.contains col)).length) := by
  refine ⟨?_, ?_, ?_⟩
  · intro S thr sv cv pool hl lt2 cl o h
    refine ⟨?_, ?_, ?_, ?_⟩
    · intro hpe
      simp only [compareField] at h
      by_cases hb : is_empty_or_nan sv = true ∧ is_empty_or_nan cv = true
      · rw [if_pos hb] at h
        cases h
        rfl
      · rw [if_neg hb, if_neg (by simp [hpe])] at h
        cases h
        rfl
    · intro hb
      simp only [compareField] at h
      rw [if_pos hb] at h
      cases h
      rfl
    · intro hnm
      simp only [compareField] at h
      by_cases hb : is_empty_or_nan sv = true ∧ is_empty_or_nan cv = true
      · rw [if_pos hb] at h
        cases h
        exact (matched_ne_not_matched hnm).elim
      · refine ⟨?_, hb⟩
        by_cases hpe : pyEq sv cv = false
        · exact hpe
        · rw [if_neg hb, if_neg hpe] at h
          cases h
          exact (matched_ne_not_matched hnm).elim
    · intro hne hnb
      simp only [compareField] at h
      rw [if_neg hnb, if_pos hne] at h
      split at h
      · cases h
        rfl
      · split at h
        · cases h
          rfl
        · split at h
          · split at h
            · split at h
              · exact Option.noConfusion h
              · cases h
                rfl
            · cases h
              rfl
          · cases h
            rfl
  · intro S thr stdCols slc ctry clc idx std_row h1 h2
    simp only [surveyRowRecords]
    rw [if_neg (by simp only [h1]; exact Bool.false_ne_true), h2]
  · intro S thr tab idx nm lst stdCols std_row crow ctry slc clc cl cols
    induction cols with
    | nil =>
      intro rs h
      cases h
      rfl
    | cons col rest ih =>
      intro rs h
      simp only [fieldLoop] at h
      split at h
      · rename_i hcond
        split at h
        · exact Option.noConfusion h
        · rename_i o heq
          split at h
          · exact Option.noConfusion h
          · rename_i rs2 heq2
            cases h
            have hb : (stdCols.contains col && ctry.cols.contains col) = true := by
              rw [hcond.1, hcond.2]
              rfl
            rw [List.filter_cons_of_pos]
            · simp only [List.length_cons, ih rs2 heq2]
            · exact hb
      · rename_i hcond
        have hb : ¬ (stdCols.contains col && ctry.cols.contains col) = true := by
          simpa [Bool.and_eq_true] using hcond
        rw [List.filter_cons_of_neg]
        · exact ih rs h
        · exact hb

/-- **C3** (witness): a standard row `age` with no country counterpart
yields exactly the one missing record. -/
theorem C3_witness :
    surveyRowRecords (constScorers 50) 90 ["name", "type"] [] ⟨["name", "type"], []⟩ [] 0
      [("name", PyVal.str "age"), ("type", PyVal.str "integer")] =
      some [missingRecord "survey" 0
        (getCell [("name", PyVal.str "age"), ("type", PyVal.str "integer")] "name")
        Option.none "Missing in country survey"] :=
  C3_amended.2.1 (constScorers 50) 90 ["name", "type"] [] ⟨["name", "type"], []⟩ [] 0
    [("name", PyVal.str "age"), ("type", PyVal.str "integer")] (by decide) (by decide)

/-- **C4** (counterexample): with threshold 90, query `"q"`, labels
`["x", "y"]` and `c4Scorers` (exact ratio gives `"x"` 80, token-set
gives `"y"` 40, everything else 10), no scorer reaches the threshold and
`find_label_match` returns `("y", 40)` — the token-set result — even
though the highest-scoring candidate across all four scorers is `"x"`
with 80.  The claim that the stage returns the single highest-scoring
candidate across all four scorers is false. -/
theorem C4_counterexample :
    find_label_match c4Scorers (PyVal.str "q") [PyVal.str "x", PyVal.str "y"] 90 =
      some ("y", 40) ∧
    c4Scorers.ratio (preprocess_text (PyVal.str "q")) "x" = 80 ∧
    (40 : Nat) < 80 := by
  exact ⟨rfl, rfl, by decide⟩

/-- **C4** (amended): when the exact-membership test fails and the exact,
token-sort and partial extractions all score below the threshold,
`find_label_match` returns exactly the token-set-ratio extraction (the
last stage tried, whatever its score), not the highest-scoring result
across all four scorers. -/
theorem C4_amended (S : Scorers) (v : PyVal) (labels : List PyVal) (thr : Nat)
    (m1 m2 m3 : String) (s1v s2v s3v : Nat)
    (hmem : ¬ preprocess_text v ∈ labels.map preprocess_text)
    (h1 : extractOne S.ratio (preprocess_text v) (labels.map preprocess_text) = some (m1, s1v))
    (hs1 : s1v < thr)
    (h2 : extractOne S.token_sort_ratio (preprocess_text v) (labels.map preprocess_text) =
      some (m2, s2v))
    (hs2 : s2v < thr)
    (h3 : extractOne S.partial_ratio (preprocess_text v) (labels.map preprocess_text) =
      some (m3, s3v))
    (hs3 : s3v < thr) :
    find_label_match S v labels thr =
      extractOne S.token_set_ratio (preprocess_text v) (labels.map preprocess_text) := by
  simp only [find_label_match, h1, h2, h3]
  rw [if_neg hmem, if_neg (Nat.not_le.mpr hs1), if_neg (Nat.not_le.mpr hs2),
    if_neg (Nat.not_le.mpr hs3)]
  cases hfl : extractOne S.token_set_ratio (preprocess_text v) (labels.map preprocess_text) with
  | none => rfl
  | some p => rfl

/-- **C4** (witness): the amended statement applied to the concrete
`c4Scorers` setup. -/
theorem C4_witness :
    find_label_match c4Scorers (PyVal.str "q") [PyVal.str "x", PyVal.str "y"] 90 =
      extractOne c4Scorers.token_set_ratio (preprocess_text (PyVal.str "q"))
        ([PyVal.str "x", PyVal.str "y"].map preprocess_text) :=
  C4_amended c4Scorers (PyVal.str "q") [PyVal.str "x", PyVal.str "y"] 90 "x" "x" "x" 80 10 10
    (by decide) (by decide) (by decide) (by decide) (by decide) (by decide) (by decide)

/-- **C5** (counterexample): the engine does have a fatal error path.
With a country dataset whose label column exists but holds only missing
values, a differing field falls through to the label stage, whose
`process.extractOne` over the empty label pool returns Python `None`;
the tuple unpacking then raises, and `compare_with_standard` (modelled
as `Option`-valued) produces no result at all instead of a discrepancy
collection. -/
theorem C5_counterexample :
    compare_with_standard lowScorers [("XX", c5ctry, emptyTable)] c5std emptyTable true 90 =
      Option.none := by
  rfl

/-- **C5** (amended): the three candidate searches do return `(None, 0)`
on an empty pool without raising, and a tracked column absent from
either table is silently skipped (every emitted field record's column is
present in both tables); but the label stage raises on an empty label
pool — `find_label_match` is the one fallible stage, so the engine has a
fatal error path when label columns exist yet contain no non-missing
values. -/
theorem C5_amended :
    (∀ (S : Scorers) (v : PyVal) (thr : Nat),
        find_approximate_match S v [] thr = (Option.none, 0)) ∧
    (∀ (S : Scorers) (v : PyVal), find_best_match S v [] = (Option.none, 0)) ∧
    (∀ (S : Scorers) (v : PyVal), find_token_match S v [] = (Option.none, 0)) ∧
    (∀ (S : Scorers) (v : PyVal) (thr : Nat),
        find_label_match S v [] thr = Option.none) ∧
    (∀ (S : Scorers) (thr : Nat) (tab : String) (idx : Nat) (nm : PyVal)
        (lst : Option PyVal) (stdCols : List String) (std_row crow : Row) (ctry : Table)
        (slc clc : List String) (cl : List PyVal) (cols : List String) (rs : List Record)
        (r : Record) (col2 : String),
        fieldLoop S thr tab idx nm lst stdCols std_row crow ctry slc clc cl cols = some rs →
        r ∈ rs → r.column = some col2 →
        stdCols.contains col2 = true ∧ ctry.cols.contains col2 = true) := by
  refine ⟨fun S v thr => rfl, fun S v => rfl, fun S v => rfl, ?_, ?_⟩
  · intro S v thr
    simp only [find_label_match]
    rw [if_neg (by simp)]
    rfl
  · intro S thr tab idx nm lst stdCols std_row crow ctry slc clc cl cols
    induction cols with
    | nil =>
      intro rs r col2 h hr _
      cases h
      exact absurd hr (List.not_mem_nil r)
    | cons col rest ih =>
      intro rs r col2 h hr hcol
      simp only [fieldLoop] at h
      split at h
      · rename_i hcond
        split at h
        · exact Option.noConfusion h
        · rename_i o heq
          split at h
          · exact Option.noConfusion h
          · rename_i rs2 heq2
            cases h
            rcases List.mem_cons.mp hr with h1 | h2
            · subst h1
              have : col = col2 := Option.some.inj hcol
              subst this
              exact hcond
            · exact ih rs2 r col2 heq2 h2 hcol
      · exact ih rs r col2 h hr hcol

/-- **C5** (witness): the column-skip conjunct applied to the concrete
one-column comparison of `wT` with itself: the single emitted record's
column `name` is present in both column lists. -/
theorem C5_witness :
    (["name"] : List String).contains "name" = true ∧ wT.cols.contains "name" = true :=
  C5_amended.2.2.2.2 (constScorers 50) 90 "survey" 0 (PyVal.str "q1") Option.none ["name"]
    [("name", PyVal.str "q1")] [("name", PyVal.str "q1")] wT [] [] []
    SURVEY_COLUMNS_TO_COMPARE
    [⟨"survey", 2, PyVal.str "q1", Option.none, some "name", some (PyVal.str "q1"),
      some (PyVal.str "q1"), Option.none, "matched", Option.none, Option.none, Option.none,
      Option.none⟩]
    ⟨"survey", 2, PyVal.str "q1", Option.none, some "name", some (PyVal.str "q1"),
      some (PyVal.str "q1"), Option.none, "matched", Option.none, Option.none, Option.none,
      Option.none⟩
    "name" rfl (by simp) rfl

/-- **C6** (counterexample): standard row `(g1, text)` against a country
row `(g1, begin_group)`: the country structural row IS matched by name —
the emitted `type` record compares against its value `begin_group` — so
the claim that structural rows never participate in name matching as the
country row is false (only standard-side structural rows are skipped). -/
theorem C6_counterexample :
    (recAt (compare_with_standard lowScorers [("XX", c6ctry, emptyTable)] c6std emptyTable
        true 90) 0 1).map
      (fun r => (r.country_value == some (PyVal.str "begin_group")) &&
        (r.matched == "not matched")) = some true := by
  rfl

/-- **C6** (amended): standard survey rows whose type is structural are
skipped before identity lookup and contribute no records at all; but the
country-side lookup filters by name only, so a country row whose name
matches is selected regardless of its type (structural rows included). -/
theorem C6_amended :
    (∀ (S : Scorers) (thr : Nat) (stdCols slc : List String) (ctry : Table)
        (clc : List String) (idx : Nat) (std_row : Row),
        isSpecial (if stdCols.contains "type" = true then getCell std_row "type"
          else PyVal.str "") = true →
        surveyRowRecords S thr stdCols slc ctry clc idx std_row = some []) ∧
    (∀ (t : Table) (n : PyVal) (r : Row),
        r ∈ t.rows → pyEq (getCell r "name") n = true →
        r ∈ t.rows.filter (fun row => pyEq (getCell row "name") n)) := by
  constructor
  · intro S thr stdCols slc ctry clc idx std_row hsp
    simp only [surveyRowRecords]
    rw [if_pos hsp]
  · intro t n r hr hname
    exact List.mem_filter.mpr ⟨hr, hname⟩

/-- **C6** (witness): a structural standard row (`type = begin_group`)
produces no records. -/
theorem C6_witness :
    surveyRowRecords (constScorers 50) 90 ["name", "type"] [] c6ctry [] 0
      [("name", PyVal.str "g"), ("type", PyVal.str "begin_group")] = some [] :=
  C6_amended.1 (constScorers 50) 90 ["name", "type"] [] c6ctry [] 0
    [("name", PyVal.str "g"), ("type", PyVal.str "begin_group")] (by decide)

/-- **C8**: the comparison result does not depend on the verbosity flag
(the source only gates logging on it), and — the embedding being a pure
function — re-running on identical inputs yields the identical
discrepancy collection. -/
theorem C8 (S : Scorers) (cd : List (String × Table × Table)) (ssr scr : Table)
    (thr : Nat) (v1 v2 : Bool) :
    compare_with_standard S cd ssr scr v1 thr = compare_with_standard S cd ssr scr v2 thr :=
  rfl

theorem mem_dedupGo : ∀ (l : List PyVal) (seen : List PyVal) (v : PyVal),
    v ∈ l → ¬ v ∈ seen → v ∈ dedupGo seen l := by
  intro l
  induction l with
  | nil =>
    intro seen v hv _
    exact absurd hv (List.not_mem_nil v)
  | cons u us ih =>
    intro seen v hv hns
    simp only [dedupGo]
    split
    · rename_i hu
      rcases List.mem_cons.mp hv with h1 | h2
      · subst h1
        exact absurd hu hns
      · exact ih seen v h2 hns
    · rcases List.mem_cons.mp hv with h1 | h2
      · subst h1
        exact List.mem_cons_self _ _
      · by_cases hvu : v = u
        · subst hvu
          exact List.mem_cons_self _ _
        · exact List.mem_cons_of_mem _
            (ih (u :: seen) v h2 (by simp [List.mem_cons, hvu, hns]))

/-- **C10**: the country row used for field comparison is the first
name-matching row in dataset order.  (1) the head of a filtered row list
is the first row satisfying the predicate; (2) every field record's
country value is read from the single row the loop was given; (3)/(4)
when the survey (resp. choices) lookup returns `crow :: rest`, the row
loop compares against `crow` alone, never against the later duplicates;
(5) each row's non-missing column value — later duplicates included —
still enters the candidate pool. -/
theorem C10 :
    (∀ (rows : List Row) (p : Row → Bool), (rows.filter p).head? = rows.find? p) ∧
    (∀ (S : Scorers) (thr : Nat) (tab : String) (idx : Nat) (nm : PyVal) (lst : Option PyVal)
        (stdCols : List String) (std_row crow : Row) (ctry : Table) (slc clc : List String)
        (cl : List PyVal) (cols : List String) (rs : List Record) (r : Record) (col2 : String),
        fieldLoop S thr tab idx nm lst stdCols std_row crow ctry slc clc cl cols = some rs →
        r ∈ rs → r.column = some col2 →
        r.country_value = some (getCell crow col2)) ∧
    (∀ (S : Scorers) (thr : Nat) (stdCols slc : List String) (ctry : Table)
        (clc : List String) (idx : Nat) (std_row crow : Row) (crest : List Row),
        isSpecial (if stdCols.contains "type" = true then getCell std_row "type"
          else PyVal.str "") = false →
        List.filter (fun rr => pyEq (getCell rr "name") (getCell std_row "name"))
          ctry.rows = crow :: crest →
        surveyRowRecords S thr stdCols slc ctry clc idx std_row =
          fieldLoop S thr "survey" idx (getCell std_row "name") Option.none stdCols std_row
            crow ctry slc clc (labelPool ctry clc) SURVEY_COLUMNS_TO_COMPARE) ∧
    (∀ (S : Scorers) (thr : Nat) (stdCols slc : List String) (ctry : Table)
        (clc : List String) (idx : Nat) (std_row crow : Row) (crest : List Row),
        List.filter (fun rr => pyEq (getCell rr "name") (getCell std_row "name") &&
          pyEq (getCell rr "list_name") (if stdCols.contains "list_name" = true then
            getCell std_row "list_name" else PyVal.str "")) ctry.rows = crow :: crest →
        choicesRowRecords S thr stdCols slc ctry clc idx std_row =
          fieldLoop S thr "choices" idx (getCell std_row "name")
            (some (if stdCols.contains "list_name" = true then getCell std_row "list_name"
              else PyVal.str "")) stdCols std_row crow ctry slc clc (labelPool ctry clc)
            CHOICES_COLUMNS_TO_COMPARE) ∧
    (∀ (t : Table) (c : String) (r2 : Row),
        r2 ∈ t.rows → isNa (getCell r2 c) = false → getCell r2 c ∈ columnPool t c) := by
  refine ⟨?_, ?_, ?_, ?_, ?_⟩
  · intro rows p
    induction rows with
    | nil => rfl
    | cons a l ih =>
      by_cases hpa : p a = true
      · rw [List.filter_cons_of_pos]
        · rw [List.find?_cons_of_pos]
          · rfl
          · exact hpa
        · exact hpa
      · rw [List.filter_cons_of_neg]
        · rw [List.find?_cons_of_neg]
          · exact ih
          · exact hpa
        · exact hpa
  · intro S thr tab idx nm lst stdCols std_row crow ctry slc clc cl cols
    induction cols with
    | nil =>
      intro rs r col2 h hr _
      cases h
      exact absurd hr (List.not_mem_nil r)
    | cons col rest ih =>
      intro rs r col2 h hr hcol
      simp only [fieldLoop] at h
      split at h
      · split at h
        · exact Option.noConfusion h
        · rename_i o heq
          split at h
          · exact Option.noConfusion h
          · rename_i rs2 heq2
            cases h
            rcases List.mem_cons.mp hr with h1 | h2
            · subst h1
              have hc : col = col2 := Option.some.inj hcol
              subst hc
              rfl
            · exact ih rs2 r col2 heq2 h2 hcol
      · exact ih rs r col2 h hr hcol
  · intro S thr stdCols slc ctry clc idx std_row crow crest h1 h2
    simp only [surveyRowRecords]
    rw [if_neg (by simp only [h1]; exact Bool.false_ne_true), h2]
  · intro S thr stdCols slc ctry clc idx std_row crow crest h2
    simp only [choicesRowRecords]
    rw [h2]
  · intro t c r2 hr hna
    unfold columnPool dedupFirst
    apply mem_dedupGo
    · apply List.mem_filter.mpr
      refine ⟨List.mem_map.mpr ⟨r2, hr, rfl⟩, ?_⟩
      simp [hna]
    · simp

/-- **C10** (witness): with two country rows both named `q1`, the `type`
record compares against the first row's value `text1`, while the second
row's value `text2` still appears in the candidate pool. -/
theorem C10_witness :
    PyVal.str "text2" ∈ columnPool c10ctry "type" ∧
    (⟨"survey", 2, PyVal.str "q1", Option.none, some "type", some (PyVal.str "alpha"),
        some (PyVal.str "text1"), Option.none, "not matched", Option.none,
        some (PyVal.str "text1"), some (PyVal.str "text1"), Option.none⟩ :
      Record).country_value =
      some (getCell [("name", PyVal.str "q1"), ("type", PyVal.str "text1")] "type") :=
  ⟨C10.2.2.2.2 c10ctry "type" [("name", PyVal.str "q1"), ("type", PyVal.str "text2")]
    (by simp [c10ctry]) (by decide),
   C10.2.1 (constScorers 50) 90 "survey" 0 (PyVal.str "q1") Option.none ["name", "type"]
    [("name", PyVal.str "q1"), ("type", PyVal.str "alpha")]
    [("name", PyVal.str "q1"), ("type", PyVal.str "text1")]
    c10ctry [] [] [] SURVEY_COLUMNS_TO_COMPARE
    [⟨"survey", 2, PyVal.str "q1", Option.none, some "name", some (PyVal.str "q1"),
      some (PyVal.str "q1"), Option.none, "matched", Option.none, Option.none, Option.none,
      Option.none⟩,
     ⟨"survey", 2, PyVal.str "q1", Option.none, some "type", some (PyVal.str "alpha"),
      some (PyVal.str "text1"), Option.none, "not matched", Option.none,
      some (PyVal.str "text1"), some (PyVal.str "text1"), Option.none⟩]
    ⟨"survey", 2, PyVal.str "q1", Option.none, some "type", some (PyVal.str "alpha"),
      some (PyVal.str "text1"), Option.none, "not matched", Option.none,
      some (PyVal.str "text1"), some (PyVal.str "text1"), Option.none⟩
    "type" rfl (by simp) rfl⟩

theorem char_toNat_ofNat (n : Nat) (h : n < 55296) : (Char.ofNat n).toNat = n := by
  unfold Char.ofNat
  rw [dif_pos (Or.inl h : Nat.isValidChar n)]
  rfl

theorem isUpperAscii_toLower (c : Char) : isUpperAscii (Char.toLower c) = false := by
  simp only [Char.toLower]
  by_cases h : c.toNat ≥ 65 ∧ c.toNat ≤ 90
  · rw [if_pos h]
    have ht : (Char.ofNat (c.toNat + 32)).toNat = c.toNat + 32 :=
      char_toNat_ofNat _ (by omega)
    simp only [isUpperAscii, ht]
    exact decide_eq_false (by omega)
  · rw [if_neg h]
    exact decide_eq_false h

theorem toLower_space (c : Char) (h : isPySpace c = true) : Char.toLower c = c := by
  simp only [isPySpace, Bool.or_eq_true, beq_iff_eq] at h
  rcases h with ((((h | h) | h) | h) | h) | h <;> subst h <;> decide

theorem preKeep (s : String) :
    ∀ c ∈ (s.data.map Char.toLower).filter (fun c => isWordChar c || isPySpace c),
      (isWordChar c || isPySpace c) = true ∧ isUpperAscii c = false := by
  intro c hc
  have h1 := List.mem_filter.mp hc
  refine ⟨h1.2, ?_⟩
  rcases List.mem_map.mp h1.1 with ⟨c0, _, hc0⟩
  rw [← hc0]
  exact isUpperAscii_toLower c0

theorem noDouble_cons_iff (a : Char) (l : List Char) :
    noDouble (a :: l) = true ↔
      (a = ' ' → l.head? ≠ some ' ') ∧ noDouble l = true := by
  cases l with
  | nil => simp [noDouble]
  | cons b rest =>
    constructor
    · intro h
      have h1 := (Bool.and_eq_true _ _).mp h
      refine ⟨?_, h1.2⟩
      intro ha hb
      have hb2 : b = ' ' := Option.some.inj hb
      rw [ha, hb2] at h1
      simp at h1
    · rintro ⟨h1, h2⟩
      apply (Bool.and_eq_true _ _).mpr
      refine ⟨?_, h2⟩
      by_cases ha : a = ' '
      · have hb : ¬ b = ' ' := fun hbe => h1 ha (congrArg some hbe)
        simp [ha, hb]
      · simp [ha]

theorem noDouble_tail (a : Char) (l : List Char) (h : noDouble (a :: l) = true) :
    noDouble l = true :=
  ((noDouble_cons_iff a l).mp h).2

theorem collapseAux_spec :
    ∀ (l : List Char) (b : Bool),
      (∀ c ∈ l, (isWordChar c || isPySpace c) = true) →
      (∀ c ∈ l, isUpperAscii c = false) →
      (∀ c ∈ collapseAux b l, canonChar c = true) ∧
      noDouble (collapseAux b l) = true ∧
      (b = true → (collapseAux b l).head? ≠ some ' ') := by
  intro l
  induction l with
  | nil =>
    intro b _ _
    exact ⟨fun c hc => absurd hc (List.not_mem_nil c), rfl, fun _ => by simp [collapseAux]⟩
  | cons c cs ih =>
    intro b hkeep hup
    have hkeep2 : ∀ x ∈ cs, (isWordChar x || isPySpace x) = true :=
      fun x hx => hkeep x (List.mem_cons_of_mem _ hx)
    have hup2 : ∀ x ∈ cs, isUpperAscii x = false :=
      fun x hx => hup x (List.mem_cons_of_mem _ hx)
    by_cases hus : (c == '_' || isPySpace c) = true
    · cases b with
      | true =>
        have heq : collapseAux true (c :: cs) = collapseAux true cs := by
          simp only [collapseAux]
          rw [if_pos hus, if_pos trivial]
        rw [heq]
        obtain ⟨ha, hb, hc⟩ := ih true hkeep2 hup2
        exact ⟨ha, hb, fun _ => hc rfl⟩
      | false =>
        have heq : collapseAux false (c :: cs) = ' ' :: collapseAux true cs := by
          simp only [collapseAux]
          rw [if_pos hus, if_neg (by simp)]
        rw [heq]
        obtain ⟨ha, hb, hc⟩ := ih true hkeep2 hup2
        refine ⟨?_, ?_, ?_⟩
        · intro x hx
          rcases List.mem_cons.mp hx with h1 | h2
          · subst h1
            decide
          · exact ha x h2
        · exact (noDouble_cons_iff _ _).mpr ⟨fun _ => hc rfl, hb⟩
        · intro hfalse
          exact absurd hfalse (by simp)
    · have hus2 : (c == '_' || isPySpace c) = false := by
        revert hus
        cases (c == '_' || isPySpace c) <;> simp
      obtain ⟨hund, hsp⟩ := Bool.or_eq_false_iff.mp hus2
      have hcne : ¬ c = ' ' := by
        intro hce
        rw [hce] at hsp
        simp [isPySpace] at hsp
      have heq : ∀ b2 : Bool, collapseAux b2 (c :: cs) = c :: collapseAux false cs := by
        intro b2
        simp only [collapseAux]
        rw [if_neg (by simp [hus2])]
      rw [heq b]
      obtain ⟨ha, hb, _⟩ := ih false hkeep2 hup2
      have hword : isWordChar c = true := by
        have hk := hkeep c (List.mem_cons_self c cs)
        cases hw : isWordChar c with
        | true => rfl
        | false =>
          rw [hw, hsp] at hk
          exact absurd hk (by simp)
      have halnum : c.isAlphanum = true := by
        have hk := hword
        simp only [isWordChar] at hk
        cases hal : c.isAlphanum with
        | true => rfl
        | false =>
          rw [hal, hund] at hk
          exact absurd hk (by simp)
      have hcanon : canonChar c = true := by
        simp [canonChar, halnum, hup c (List.mem_cons_self c cs), hund]
      refine ⟨?_, ?_, ?_⟩
      · intro x hx
        rcases List.mem_cons.mp hx with h1 | h2
        · subst h1
          exact hcanon
        · exact ha x h2
      · exact (noDouble_cons_iff _ _).mpr ⟨fun hce => absurd hce hcne, hb⟩
      · intro _ hh
        exact hcne (Option.some.inj hh)

theorem mem_dropWhile (p : Char → Bool) :
    ∀ (l : List Char) (c : Char), c ∈ l.dropWhile p → c ∈ l := by
  intro l
  induction l with
  | nil =>
    intro c hc
    simp at hc
  | cons a as ih =>
    intro c hc
    cases hpa : p a with
    | true =>
      simp only [List.dropWhile, hpa] at hc
      exact List.mem_cons_of_mem _ (ih c hc)
    | false =>
      simp only [List.dropWhile, hpa] at hc
      exact hc

theorem mem_dropWhile_of_skip (p : Char → Bool) :
    ∀ (l : List Char) (c : Char), c ∈ l → p c = false → c ∈ l.dropWhile p := by
  intro l
  induction l with
  | nil =>
    intro c hc _
    exact absurd hc (List.not_mem_nil c)
  | cons a as ih =>
    intro c hc hpc
    cases hpa : p a with
    | true =>
      simp only [List.dropWhile, hpa]
      rcases List.mem_cons.mp hc with h1 | h2
      · subst h1
        rw [hpa] at hpc
        exact absurd hpc (by simp)
      · exact ih c h2 hpc
    | false =>
      simp only [List.dropWhile, hpa]
      exact hc

theorem head_dropWhile (p : Char → Bool) :
    ∀ (l : List Char) (c : Char), (l.dropWhile p).head? = some c → p c = false := by
  intro l
  induction l with
  | nil =>
    intro c hc
    simp [List.dropWhile] at hc
  | cons a as ih =>
    intro c hc
    cases hpa : p a with
    | true =>
      simp only [List.dropWhile, hpa] at hc
      exact ih c hc
    | false =>
      simp only [List.dropWhile, hpa, List.head?] at hc
      have hac : a = c := Option.some.inj hc
      rw [← hac]
      exact hpa

theorem noDouble_dropWhile :
    ∀ l : List Char, noDouble l = true → noDouble (l.dropWhile isPySpace) = true := by
  intro l
  induction l with
  | nil =>
    intro h
    exact h
  | cons a as ih =>
    intro h
    cases hpa : isPySpace a with
    | true =>
      simp only [List.dropWhile, hpa]
      exact ih (noDouble_tail a as h)
    | false =>
      simp only [List.dropWhile, hpa]
      exact h

theorem mem_dropTrailing :
    ∀ (l : List Char) (c : Char), c ∈ dropTrailingSpaces l → c ∈ l := by
  intro l
  induction l with
  | nil =>
    intro c hc
    simp [dropTrailingSpaces] at hc
  | cons a as ih =>
    intro c hc
    simp only [dropTrailingSpaces] at hc
    split at hc
    · exact absurd hc (List.not_mem_nil c)
    · rcases List.mem_cons.mp hc with h1 | h2
      · subst h1
        exact List.mem_cons_self _ _
      · exact List.mem_cons_of_mem _ (ih c h2)

theorem head_dropTrailing :
    ∀ (l : List Char) (c : Char), (dropTrailingSpaces l).head? = some c → l.head? = some c := by
  intro l
  induction l with
  | nil =>
    intro c hc
    simp [dropTrailingSpaces] at hc
  | cons a as _ =>
    intro c hc
    simp only [dropTrailingSpaces] at hc
    split at hc
    · exact absurd hc (by simp)
    · simp only [List.head?] at hc ⊢
      exact hc

theorem getLast_dropTrailing :
    ∀ (l : List Char) (c : Char),
      (dropTrailingSpaces l).getLast? = some c → isPySpace c = false := by
  intro l
  induction l with
  | nil =>
    intro c hc
    simp [dropTrailingSpaces] at hc
  | cons a as ih =>
    intro c hc
    simp only [dropTrailingSpaces] at hc
    split at hc
    · simp at hc
    · rename_i hcond
      cases hr : dropTrailingSpaces as with
      | nil =>
        rw [hr] at hc hcond
        have ha : isPySpace a = false := by
          revert hcond
          cases isPySpace a <;> simp
        have hac : a = c := by
          simpa using hc
        rw [← hac]
        exact ha
      | cons b bs =>
        rw [hr] at hc
        rw [List.getLast?_cons_cons] at hc
        apply ih c
        rw [hr]
        exact hc

theorem noDouble_dropTrailing :
    ∀ l : List Char, noDouble l = true → noDouble (dropTrailingSpaces l) = true := by
  intro l
  induction l with
  | nil =>
    intro h
    exact h
  | cons a as ih =>
    intro h
    simp only [dropTrailingSpaces]
    split
    · rfl
    · refine (noDouble_cons_iff _ _).mpr ⟨?_, ih (noDouble_tail a as h)⟩
      intro ha hh
      have h2 := head_dropTrailing as ' ' hh
      exact ((noDouble_cons_iff a as).mp h).1 ha h2

theorem dropTrailing_eq_nil :
    ∀ l : List Char, dropTrailingSpaces l = [] → ∀ c ∈ l, isPySpace c = true := by
  intro l
  induction l with
  | nil =>
    intro _ c hc
    exact absurd hc (List.not_mem_nil c)
  | cons a as ih =>
    intro h c hc
    simp only [dropTrailingSpaces] at h
    split at h
    · rename_i hcond
      obtain ⟨h1, h2⟩ := (Bool.and_eq_true _ _).mp hcond
      rcases List.mem_cons.mp hc with hx | hx
      · subst hx
        exact h2
      · exact ih (List.isEmpty_iff.mp h1) c hx
    · exact absurd h (by simp)

theorem stripChars_eq_nil :
    ∀ l : List Char, stripChars l = [] → ∀ c ∈ l, isPySpace c = true := by
  intro l h c hc
  unfold stripChars at h
  have h2 := dropTrailing_eq_nil _ h
  by_cases hsp : isPySpace c = true
  · exact hsp
  · have hmem := mem_dropWhile_of_skip isPySpace l c hc (by
      revert hsp
      cases isPySpace c <;> simp)
    exact h2 c hmem

theorem collapseAux_true_allspace :
    ∀ l : List Char, (∀ c ∈ l, (c == '_' || isPySpace c) = true) →
      collapseAux true l = [] := by
  intro l
  induction l with
  | nil =>
    intro _
    rfl
  | cons c cs ih =>
    intro h
    simp only [collapseAux]
    rw [if_pos (h c (List.mem_cons_self c cs)), if_pos trivial]
    exact ih fun x hx => h x (List.mem_cons_of_mem _ hx)

theorem strip_collapse_allspace :
    ∀ l : List Char, (∀ c ∈ l, isPySpace c = true) →
      stripChars (collapseRuns l) = [] := by
  intro l h
  cases l with
  | nil => rfl
  | cons c cs =>
    have hsp : ∀ x ∈ c :: cs, (x == '_' || isPySpace x) = true := by
      intro x hx
      rw [h x hx]
      simp
    simp only [collapseRuns, collapseAux]
    rw [if_pos (hsp c (List.mem_cons_self c cs)), if_neg (by simp),
      collapseAux_true_allspace cs fun x hx => hsp x (List.mem_cons_of_mem _ hx)]
    rfl

/-- **C9**: `preprocess_text` is total (it is a Lean function) and for
every input returns a canonical string: only lower-case alphanumerics
and single spaces (punctuation and underscores gone, no ASCII uppercase
left), with no space runs and no leading or trailing space; and every
missing/empty/NaN-like input (in the sense of `is_empty_or_nan`) maps to
the empty string. -/
theorem C9 (v : PyVal) :
    canonicalStr (preprocess_text v) = true ∧
    (is_empty_or_nan v = true → preprocess_text v = "") := by
  cases v with
  | none => exact ⟨rfl, fun _ => rfl⟩
  | nan => exact ⟨rfl, fun _ => rfl⟩
  | str s =>
    constructor
    · obtain ⟨hchars, hnd, _⟩ :=
        collapseAux_spec
          ((s.data.map Char.toLower).filter (fun c => isWordChar c || isPySpace c)) false
          (fun c hc => (preKeep s c hc).1) (fun c hc => (preKeep s c hc).2)
      have hall : (stripChars (collapseRuns
          ((s.data.map Char.toLower).filter (fun c => isWordChar c || isPySpace c)))).all
            canonChar = true := by
        apply List.all_eq_true.mpr
        intro c hc
        exact hchars c (mem_dropWhile _ _ c (mem_dropTrailing _ c hc))
      have hnd2 : noDouble (stripChars (collapseRuns
          ((s.data.map Char.toLower).filter (fun c => isWordChar c || isPySpace c)))) =
            true :=
        noDouble_dropTrailing _ (noDouble_dropWhile _ hnd)
      have hhead : ((stripChars (collapseRuns
          ((s.data.map Char.toLower).filter
            (fun c => isWordChar c || isPySpace c)))).head? == some ' ') = false := by
        rw [beq_eq_false_iff_ne]
        intro hh
        have h2 := head_dropTrailing _ _ hh
        have h3 := head_dropWhile _ _ _ h2
        simp [isPySpace] at h3
      have hlast : ((stripChars (collapseRuns
          ((s.data.map Char.toLower).filter
            (fun c => isWordChar c || isPySpace c)))).getLast? == some ' ') = false := by
        rw [beq_eq_false_iff_ne]
        intro hh
        have h2 := getLast_dropTrailing _ _ hh
        simp [isPySpace] at h2
      show ((stripChars (collapseRuns ((s.data.map Char.toLower).filter
            (fun c => isWordChar c || isPySpace c)))).all canonChar &&
          noDouble (stripChars (collapseRuns ((s.data.map Char.toLower).filter
            (fun c => isWordChar c || isPySpace c)))) &&
          !((stripChars (collapseRuns ((s.data.map Char.toLower).filter
            (fun c => isWordChar c || isPySpace c)))).head? == some ' ') &&
          !((stripChars (collapseRuns ((s.data.map Char.toLower).filter
            (fun c => isWordChar c || isPySpace c)))).getLast? == some ' ')) = true
      rw [hall, hnd2, hhead, hlast]
      rfl
    · intro he
      have hnil : stripChars s.data = [] := List.isEmpty_iff.mp he
      have hsp := stripChars_eq_nil s.data hnil
      have hfil : ∀ c ∈ (s.data.map Char.toLower).filter
          (fun c => isWordChar c || isPySpace c), isPySpace c = true := by
        intro c hc
        rcases List.mem_map.mp (List.mem_filter.mp hc).1 with ⟨c0, hc0, hlow⟩
        rw [← hlow, toLower_space c0 (hsp c0 hc0)]
        exact hsp c0 hc0
      show (⟨stripChars (collapseRuns ((s.data.map Char.toLower).filter
        (fun c => isWordChar c || isPySpace c)))⟩ : String) = ""
      rw [strip_collapse_allspace _ hfil]

/-- **C9** (witness): a whitespace-only string normalizes to the empty
string, and a representative messy string normalizes to canonical form. -/
theorem C9_witness :
    preprocess_text (PyVal.str " ") = "" ∧
    canonicalStr (preprocess_text (PyVal.str "Hello, World__x")) = true :=
  ⟨(C9 (PyVal.str " ")).2 (by decide), (C9 (PyVal.str "Hello, World__x")).1⟩
